import Mathlib

/-!
Verification of the torus ASCII renderer (`src/main.rs`) against its
natural-language specification.

The program is embedded shallowly:

* machine integers (`i32`) become `Int`; the no-overflow claims are settled
  separately, which justifies the exact-integer model elsewhere;
* Rust's arithmetic right shift `>>` on a signed value is floor division by a
  power of two; since the divisor `2 ^ n` is positive this coincides with
  Lean's Euclidean division `/` on `Int`, which we use via `sar`;
* Rust's `/` on `i32` truncates toward zero, which is `Int.tdiv`;
* fallible operations (`i8::try_from(..).expect(..)`, out-of-range ramp
  indexing) are modelled with `Option`, `none` standing for an abort;
* the two fixed-size buffers become total functions from flat cell index.
-/

namespace Donut

/-- Arithmetic right shift by `n` bits: floor division by `2 ^ n`.
For a positive divisor Euclidean division equals floor division, so `Int`
division `/` (which is `Int.ediv`) is exactly Rust's `>>` on `i32`. -/
def sar (a : Int) (n : Nat) : Int := a / (2 ^ n : Int)

/-- `fn rotate(multiplier, shift, x, y)` from `src/main.rs`, acting on the
pair `(x, y)`.  `temp` holds the original `*x`; the first component is
updated before the second, which uses `temp`. -/
def rotate (multiplier : Int) (shift : Nat) (p : Int × Int) : Int × Int :=
  let temp := p.1
  let x := p.1 - sar (multiplier * p.2) shift
  let y := p.2 + sar (multiplier * temp) shift
  let corr := sar (3145728 - x * x - y * y) 11
  (sar (x * corr) 10, sar (y * corr) 10)

/-- Modelled from the spec (section 4.1 Angle Stepper): the claimed algorithm
`newCos = cos - (multiplier*sin >> shift)`, `newSin = sin + (multiplier*cos
>> shift)` (original `cos`), `correction = (3*1024^2 - newCos^2 - newSin^2)
>> 11`, results `(newCos*correction) >> 10` and `(newSin*correction) >> 10`.
Used only to compare with `rotate`. -/
def rotateSpec (multiplier : Int) (shift : Nat) (p : Int × Int) : Int × Int :=
  let newCos := p.1 - sar (multiplier * p.2) shift
  let newSin := p.2 + sar (multiplier * p.1) shift
  let correction := sar (3 * 1024 ^ 2 - newCos ^ 2 - newSin ^ 2) 11
  (sar (newCos * correction) 10, sar (newSin * correction) 10)

def BUFFER_SIZE : Nat := 1760

def LUMINANCE_CHARS : List Char :=
  ['.', ',', '-', '~', ':', ';', '=', '!', '*', '#', '$', '@']

def minor_radius_r1 : Int := 1
def major_radius_r2 : Int := 2048
def distance_constant_k2 : Int := 5120 * 1024

/-- The eight integers the inner loop body reads: the four fixed-point
unit-vector pairs (orientation `A`, orientation `B`, tube sweep `i`,
torus sweep `j`). -/
structure Vecs where
  cos_A : Int
  sin_A : Int
  cos_B : Int
  sin_B : Int
  cos_i : Int
  sin_i : Int
  cos_j : Int
  sin_j : Int
deriving DecidableEq

def sx0 (v : Vecs) : Int := minor_radius_r1 * v.cos_j + major_radius_r2
def sx1 (v : Vecs) : Int := sar (v.cos_i * sx0 v) 10
def sx2 (v : Vecs) : Int := sar (v.cos_A * v.sin_j) 10
def sx3 (v : Vecs) : Int := sar (v.sin_i * sx0 v) 10
def sx4 (v : Vecs) : Int := minor_radius_r1 * sx2 v - sar (v.sin_A * sx3 v) 10
def sx5 (v : Vecs) : Int := sar (v.sin_A * v.sin_j) 10
def sx6 (v : Vecs) : Int :=
  distance_constant_k2 + minor_radius_r1 * 1024 * sx5 v + v.cos_A * sx3 v
def sx7 (v : Vecs) : Int := sar (v.cos_j * v.sin_i) 10

/-- `let x: i32 = 40 + 30 * (cos_B * x1 - sin_B * x4) / x6;`
(Rust `/` truncates toward zero). -/
def screenX (v : Vecs) : Int :=
  40 + Int.tdiv (30 * (v.cos_B * sx1 v - v.sin_B * sx4 v)) (sx6 v)

/-- `let y: i32 = 12 + 15 * (cos_B * x4 + sin_A * x1) / x6;` -/
def screenY (v : Vecs) : Int :=
  12 + Int.tdiv (15 * (v.cos_B * sx4 v + v.sin_A * sx1 v)) (sx6 v)

/-- The raw `i32` luminance index, before the `usize` conversion. -/
def lumIndex (v : Vecs) : Int :=
  sar (sar (-1 * v.cos_A * sx7 v
        - v.cos_B * (sar (-1 * v.sin_A * sx7 v) 10 + sx2 v)
        - v.cos_i * sar (v.cos_j * v.sin_B) 10) 10
      - sx5 v) 7

/-- `usize::try_from(luminance_index).unwrap_or(0)`: the conversion fails
exactly on negative inputs, which fall back to `0`. -/
def lumNat (l : Int) : Nat := if l < 0 then 0 else l.toNat

/-- `LUMINANCE_CHARS[luminance_index]`: `none` models the abort on an index
past the end of the 12-entry ramp. -/
def lumChar (l : Int) : Option Char := LUMINANCE_CHARS[lumNat l]?

/-- The raw depth value `(x6 - distance_constant_k2) >> 15`. -/
def zzRaw (v : Vecs) : Int := sar (sx6 v - distance_constant_k2) 15

/-- `i8::try_from(..).expect(..)`: `none` models the abort when the value
does not fit a signed 8-bit integer. -/
def zzTry (r : Int) : Option Int :=
  if -128 ≤ r ∧ r ≤ 127 then some r else none

/-- `as usize` on a 64-bit target: reduction modulo `2 ^ 64` (identity for
the in-bounds values that can actually be written). -/
def usizeOf (a : Int) : Nat := (a % (2 ^ 64 : Int)).toNat

/-- `let o: usize = (x as usize) + ((y as isize).wrapping_mul(80) as usize)
% BUFFER_SIZE;` — `%` binds tighter than `+` in Rust. -/
def cellIndex (x y : Int) : Nat := usizeOf x + usizeOf (y * 80) % BUFFER_SIZE

/-- The character grid and the parallel depth grid, as total functions from
the flat cell index. -/
structure Buffers where
  chars : Nat → Char
  depths : Nat → Int

/-- The per-frame reset: every cell blank, every depth `i8::MAX = 127`. -/
def initBuffers : Buffers := ⟨fun _ => ' ', fun _ => 127⟩

/-- The bounds test `22 > y && y > 0 && x > 0 && 80 > x`, in source order. -/
def inBoundsB (x y : Int) : Bool :=
  decide (22 > y) && decide (y > 0) && decide (x > 0) && decide (80 > x)

/-- One candidate write: projected screen position, converted depth proxy,
and the character to store. -/
structure Sample where
  x : Int
  y : Int
  zz : Int
  ch : Char

/-- The guarded buffer update from the inner loop:
`if 22 > y && y > 0 && x > 0 && 80 > x && zz < z_buffer[o] { .. }`.
The cell index is only consulted when the bounds tests pass, mirroring the
short-circuit evaluation in the source. -/
def writeSample (b : Buffers) (s : Sample) : Buffers :=
  if inBoundsB s.x s.y && decide (s.zz < b.depths (cellIndex s.x s.y)) then
    { chars := Function.update b.chars (cellIndex s.x s.y) s.ch
      depths := Function.update b.depths (cellIndex s.x s.y) s.zz }
  else b

def processSamples (b : Buffers) (l : List Sample) : Buffers :=
  l.foldl writeSample b

/-- The samples of a list that pass the bounds check and map to `cell`. -/
def candsFor (l : List Sample) (cell : Nat) : List Sample :=
  l.filter fun s => inBoundsB s.x s.y && (cellIndex s.x s.y == cell)

/-- The smallest depth among the candidates for `cell`, starting from the
reset value 127. -/
def minDepth (cell : Nat) (l : List Sample) : Int :=
  (candsFor l cell).foldl (fun a s => min a s.zz) 127

/-- One iteration of the innermost loop body on the buffers: compute the
depth proxy (aborting if it does not fit an `i8`), test the guard, and on
success look up the ramp character (aborting on an out-of-range index) and
perform the guarded write. -/
def sampleStep (v : Vecs) (b : Buffers) : Option Buffers :=
  match zzTry (zzRaw v) with
  | none => none
  | some zz =>
    if inBoundsB (screenX v) (screenY v)
        && decide (zz < b.depths (cellIndex (screenX v) (screenY v))) then
      match lumChar (lumIndex v) with
      | none => none
      | some c => some (writeSample b ⟨screenX v, screenY v, zz, c⟩)
    else some b

def mkVecs (A B I J : Int × Int) : Vecs :=
  ⟨A.1, A.2, B.1, B.2, I.1, I.2, J.1, J.2⟩

/-- The inner `for _i in 0..324` loop: after each sample the tube-angle
vector advances by `rotate(5, 8, ..)`. -/
def innerLoop (A B : Int × Int) : Nat → (Int × Int) → (Int × Int) → Buffers → Option Buffers
  | 0, _, _, b => some b
  | n + 1, I, J, b =>
    match sampleStep (mkVecs A B I J) b with
    | none => none
    | some b2 => innerLoop A B n (rotate 5 8 I) J b2

/-- The outer `for _j in 0..90` loop: the tube-angle vector restarts at
`(1024, 0)` for every row, and the torus-angle vector advances by
`rotate(9, 7, ..)` after each row. -/
def outerLoop (A B : Int × Int) : Nat → (Int × Int) → Buffers → Option Buffers
  | 0, _, b => some b
  | n + 1, J, b =>
    match innerLoop A B 324 (1024, 0) J b with
    | none => none
    | some b2 => outerLoop A B n (rotate 9 7 J) b2

/-- One frame's sampling sweep from freshly reset buffers, as a function of
the persistent orientation vectors. -/
def renderFrame (A B : Int × Int) : Option Buffers :=
  outerLoop A B 90 (1024, 0) initBuffers

/-- `iter f n x` applies `f` to `x` exactly `n` times (written with a bare
`Nat.rec` so that the kernel can evaluate long iterations cheaply). -/
def iter {α : Sort _} (f : α → α) (n : Nat) (x : α) : α :=
  Nat.rec (motive := fun _ => α → α) (fun y => y) (fun _ ih y => ih (f y)) n x

/-- `iterAllB f q n x = true` iff `q` holds on all of `x, f x, .., f^n x`. -/
def iterAllB {α : Sort _} (f : α → α) (q : α → Bool) (n : Nat) (x : α) : Bool :=
  Nat.rec (motive := fun _ => α → Bool) (fun y => q y)
    (fun _ ih y => q y && ih (f y)) n x

/-- Orientation `A` before frame `n`: starts at `(cos, sin) = (0, 1024)` and
advances by `rotate(5, 7, ..)` once per frame. -/
def stateA (n : Nat) : Int × Int := iter (rotate 5 7) n (0, 1024)

/-- Orientation `B` before frame `n`: starts at `(0, 1024)`, advances by
`rotate(5, 8, ..)` once per frame. -/
def stateB (n : Nat) : Int × Int := iter (rotate 5 8) n (0, 1024)

/-- Tube-angle vector before inner iteration `k`: starts at `(1024, 0)`. -/
def stateI (k : Nat) : Int × Int := iter (rotate 5 8) k (1024, 0)

/-- Torus-angle vector before outer iteration `m`: starts at `(1024, 0)`. -/
def stateJ (m : Nat) : Int × Int := iter (rotate 9 7) m (1024, 0)

/-- Auxiliary trajectory: `rotate(9, 7, ..)` from `(0, 1024)`. -/
def stateJalt (n : Nat) : Int × Int := iter (rotate 9 7) n (0, 1024)

/-- Auxiliary trajectory: `rotate(5, 7, ..)` from `(1024, 0)`. -/
def stateAalt (n : Nat) : Int × Int := iter (rotate 5 7) n (1024, 0)

/-- The loop state seen by the sample at frame `n`, inner index `k`, outer
index `m`. -/
def progVecs (n k m : Nat) : Vecs :=
  mkVecs (stateA n) (stateB n) (stateI k) (stateJ m)

def radSq (p : Int × Int) : Int := p.1 * p.1 + p.2 * p.2

/-- Both coordinates within the fixed-point unit range. -/
def qCoord (p : Int × Int) : Bool := decide (|p.1| ≤ 1024 ∧ |p.2| ≤ 1024)

/-- Squared magnitude within tolerance 4559 of `1024 ^ 2 = 1048576`. -/
def qRad (p : Int × Int) : Bool := decide (|radSq p - 1048576| ≤ 4559)

/-- Per-state linear bound on an orientation-`A` pair `(cos_A, sin_A)` that
controls the depth term `x6 - k2`. -/
def qLinA (p : Int × Int) : Bool :=
  decide (1024 * |p.2| + 3072 * |p.1| ≤ 3320000)

def qMain (p : Int × Int) : Bool := qCoord p && qRad p

def qFullA (p : Int × Int) : Bool := qCoord p && qRad p && qLinA p

/-- Whether a value fits a signed 32-bit accumulator. -/
def fitsI32B (v : Int) : Bool := decide (-2147483648 ≤ v ∧ v ≤ 2147483647)

/-- `*x - (multiplier * *y >> shift)`: the updated first component. -/
def rotNewCos (multiplier : Int) (shift : Nat) (p : Int × Int) : Int :=
  p.1 - sar (multiplier * p.2) shift

/-- `*y + (multiplier * temp >> shift)`: the updated second component. -/
def rotNewSin (multiplier : Int) (shift : Nat) (p : Int × Int) : Int :=
  p.2 + sar (multiplier * p.1) shift

/-- `3145728 - *x * *x`: the first subtraction of the correction. -/
def rotD1 (multiplier : Int) (shift : Nat) (p : Int × Int) : Int :=
  3145728 - rotNewCos multiplier shift p * rotNewCos multiplier shift p

/-- `3145728 - *x * *x - *y * *y`: the second subtraction. -/
def rotD2 (multiplier : Int) (shift : Nat) (p : Int × Int) : Int :=
  rotD1 multiplier shift p - rotNewSin multiplier shift p * rotNewSin multiplier shift p

/-- The correction factor `temp = .. >> 11`. -/
def rotCorr (multiplier : Int) (shift : Nat) (p : Int × Int) : Int :=
  sar (rotD2 multiplier shift p) 11

/-- Every intermediate arithmetic result of one `rotate` call fits `i32`:
the products `multiplier * sin` and `multiplier * cos`, the shifted update
results, the two squares, the two subtractions of the correction, the
correction itself, the correction products, and the two final shifts. -/
def rotateNoOverflowB (multiplier : Int) (shift : Nat) (p : Int × Int) : Bool :=
  fitsI32B (multiplier * p.2) &&
  fitsI32B (rotNewCos multiplier shift p) &&
  fitsI32B (multiplier * p.1) &&
  fitsI32B (rotNewSin multiplier shift p) &&
  fitsI32B (rotNewCos multiplier shift p * rotNewCos multiplier shift p) &&
  fitsI32B (rotNewSin multiplier shift p * rotNewSin multiplier shift p) &&
  fitsI32B (rotD1 multiplier shift p) &&
  fitsI32B (rotD2 multiplier shift p) &&
  fitsI32B (rotCorr multiplier shift p) &&
  fitsI32B (rotNewCos multiplier shift p * rotCorr multiplier shift p) &&
  fitsI32B (rotNewSin multiplier shift p * rotCorr multiplier shift p) &&
  fitsI32B (sar (rotNewCos multiplier shift p * rotCorr multiplier shift p) 10) &&
  fitsI32B (sar (rotNewSin multiplier shift p * rotCorr multiplier shift p) 10)

/-- The frame print loop `for k in 0..1761`: position `k` shows a newline
when `k % 80 == 0` and `buffer[k]` otherwise. -/
def frameChars (buf : Nat → Char) : List Char :=
  (List.range 1761).map fun k => if k % 80 = 0 then '\n' else buf k

/-- `print!("\x1b[23A")`: the cursor-up-23-lines control sequence. -/
def cursorUp23 : List Char := ['\x1b', '[', '2', '3', 'A']

/-- The full text a frame sends to the terminal. -/
def frameOutput (buf : Nat → Char) : List Char := frameChars buf ++ cursorUp23

/-- A state on which the luminance index computes to 16: the lookup aborts
instead of clamping to the brightest entry. -/
def vStar : Vecs := ⟨-1024, 0, 0, -1024, 1024, 1024, 1024, 0⟩

/-- A state whose raw depth value overflows the `i8` range. -/
def vBig : Vecs := ⟨1048576, 0, 0, 0, 1024, 1024, 1024, 0⟩

/-- Two in-bounds samples aimed at the same screen cell `(5, 3)`. -/
def twoSamples : List Sample := [⟨5, 3, 10, '#'⟩, ⟨5, 3, 7, '@'⟩]

/-- Checked iteration: returns `some` of the `n`-th iterate of `f` from `x`
when every visited state (including the last) satisfies `q`, else `none`.
Used to certify whole trajectory segments by kernel computation. -/
def iterChk (f : Int × Int → Int × Int) (q : Int × Int → Bool) (n : Nat)
    (x : Int × Int) : Option (Int × Int) :=
  Nat.rec (motive := fun _ => Int × Int → Option (Int × Int))
    (fun y => if q y then some y else none)
    (fun _ ih y => if q y then ih (f y) else none) n x

end Donut

namespace Donut

theorem iter_zero {α : Sort _} (f : α → α) (x : α) : iter f 0 x = x := rfl

theorem iter_succ {α : Sort _} (f : α → α) (n : Nat) (x : α) :
    iter f (n + 1) x = iter f n (f x) := rfl

theorem iter_add {α : Sort _} (f : α → α) (a b : Nat) (x : α) :
    iter f (a + b) x = iter f b (iter f a x) := by
  induction a generalizing x with
  | zero => rw [Nat.zero_add]; rfl
  | succ a ih =>
      rw [Nat.succ_add, iter_succ, iter_succ, ih]

theorem iterChk_zero (f : Int × Int → Int × Int) (q : Int × Int → Bool)
    (x : Int × Int) : iterChk f q 0 x = if q x then some x else none := rfl

theorem iterChk_succ (f : Int × Int → Int × Int) (q : Int × Int → Bool)
    (n : Nat) (x : Int × Int) :
    iterChk f q (n + 1) x = if q x then iterChk f q n (f x) else none := rfl

theorem iterChk_of_qfalse (f : Int × Int → Int × Int) (q : Int × Int → Bool)
    (n : Nat) (x : Int × Int) (h : q x = false) : iterChk f q n x = none := by
  cases n with
  | zero => rw [iterChk_zero, h]; rfl
  | succ n => rw [iterChk_succ, h]; rfl

theorem iterChk_add (f : Int × Int → Int × Int) (q : Int × Int → Bool)
    (a b : Nat) (x : Int × Int) :
    iterChk f q (a + b) x = (iterChk f q a x).bind (iterChk f q b) := by
  induction a generalizing x with
  | zero =>
      rw [Nat.zero_add, iterChk_zero]
      by_cases h : q x = true
      · rw [if_pos h]; rfl
      · rw [if_neg h, iterChk_of_qfalse f q b x (by simpa using h)]; rfl
  | succ a ih =>
      rw [Nat.succ_add, iterChk_succ, iterChk_succ]
      by_cases h : q x = true
      · rw [if_pos h, if_pos h, ih]
      · rw [if_neg h, if_neg h]; rfl

theorem iterChk_add_some (f : Int × Int → Int × Int) (q : Int × Int → Bool)
    (a b : Nat) (x y : Int × Int) (h : iterChk f q a x = some y) :
    iterChk f q (a + b) x = iterChk f q b y := by
  rw [iterChk_add, h]; rfl

theorem iterChk_spec (f : Int × Int → Int × Int) (q : Int × Int → Bool)
    (n : Nat) (x v : Int × Int) (h : iterChk f q n x = some v) :
    iter f n x = v ∧ ∀ k, k ≤ n → q (iter f k x) = true := by
  induction n generalizing x with
  | zero =>
      rw [iterChk_zero] at h
      by_cases hq : q x = true
      · rw [if_pos hq] at h
        refine ⟨by injection h, fun k hk => ?_⟩
        interval_cases k
        exact hq
      · rw [if_neg hq] at h; cases h
  | succ n ih =>
      rw [iterChk_succ] at h
      by_cases hq : q x = true
      · rw [if_pos hq] at h
        obtain ⟨h1, h2⟩ := ih (f x) h
        refine ⟨by rw [iter_succ]; exact h1, fun k hk => ?_⟩
        cases k with
        | zero => exact hq
        | succ k => rw [iter_succ]; exact h2 k (Nat.le_of_succ_le_succ hk)
      · rw [if_neg hq] at h; cases h

theorem iter_all_of_cycle (f : Int × Int → Int × Int) (q : Int × Int → Bool)
    (x0 : Int × Int) (pre p : Nat) (hp : 0 < p)
    (hcyc : iter f (pre + p) x0 = iter f pre x0)
    (hall : ∀ k, k ≤ pre + p → q (iter f k x0) = true) :
    ∀ n, q (iter f n x0) = true := by
  intro n
  induction n using Nat.strong_induction_on with
  | _ n ih =>
      by_cases hn : n ≤ pre + p
      · exact hall n hn
      · push_neg at hn
        obtain ⟨m, rfl⟩ := Nat.exists_eq_add_of_lt hn
        have key : iter f (pre + p + m + 1) x0 = iter f (pre + (m + 1)) x0 := by
          rw [show pre + p + m + 1 = (pre + p) + (m + 1) by omega,
            iter_add f (pre + p) (m + 1) x0, hcyc, ← iter_add]
        rw [key]
        exact ih (pre + (m + 1)) (by omega)

set_option maxRecDepth 4000 in
theorem stateA_all : ∀ n, qFullA (stateA n) = true := by
  have h1 : iterChk (rotate 5 7) qFullA 200 (0, 1024) = some (-1022, 68) := by decide
  have h2 : iterChk (rotate 5 7) qFullA 200 (-1022, 68) = some (-121, -1017) := by decide
  have h3 : iterChk (rotate 5 7) qFullA 200 (-121, -1017) = some (999, -223) := by decide
  have h4 : iterChk (rotate 5 7) qFullA 100 (999, -223) = some (-890, -507) := by decide
  have hpre : iterChk (rotate 5 7) qFullA 53 (0, 1024) = some (-890, -507) := by decide
  have hfull : iterChk (rotate 5 7) qFullA 700 (0, 1024) = some (-890, -507) := by
    have e : (700 : Nat) = 200 + (200 + (200 + 100)) := by norm_num
    rw [e, iterChk_add_some _ _ _ _ _ _ h1, iterChk_add_some _ _ _ _ _ _ h2,
      iterChk_add_some _ _ _ _ _ _ h3]
    exact h4
  obtain ⟨hst, hall⟩ := iterChk_spec _ _ _ _ _ hfull
  obtain ⟨hst2, _⟩ := iterChk_spec _ _ _ _ _ hpre
  have hcyc : iter (rotate 5 7) (53 + 647) (0, 1024) = iter (rotate 5 7) 53 (0, 1024) := by
    show iter (rotate 5 7) 700 (0, 1024) = _
    rw [hst, hst2]
  intro n
  exact iter_all_of_cycle _ _ _ 53 647 (by norm_num) hcyc hall n

set_option maxRecDepth 4000 in
theorem stateI_all : ∀ n, qMain (stateI n) = true := by
  have h1 : iterChk (rotate 5 8) qMain 200 (1024, 0) = some (-746, -701) := by decide
  have h2 : iterChk (rotate 5 8) qMain 200 (-746, -701) = some (146, 1012) := by decide
  have h3 : iterChk (rotate 5 8) qMain 200 (146, 1012) = some (635, -803) := by decide
  have h4 : iterChk (rotate 5 8) qMain 105 (635, -803) = some (493, 896) := by decide
  have hpt : iterChk (rotate 5 8) qMain 181 (-746, -701) = some (493, 896) := by decide
  have hfull : iterChk (rotate 5 8) qMain 705 (1024, 0) = some (493, 896) := by
    have e : (705 : Nat) = 200 + (200 + (200 + (105))) := by norm_num
    rw [e, iterChk_add_some _ _ _ _ _ _ h1, iterChk_add_some _ _ _ _ _ _ h2, iterChk_add_some _ _ _ _ _ _ h3]
    exact h4
  have hpre : iterChk (rotate 5 8) qMain 381 (1024, 0) = some (493, 896) := by
    have e2 : (381 : Nat) = 200 + (181) := by norm_num
    rw [e2, iterChk_add_some _ _ _ _ _ _ h1]
    exact hpt
  obtain ⟨hst, hall⟩ := iterChk_spec _ _ _ _ _ hfull
  obtain ⟨hst2, _⟩ := iterChk_spec _ _ _ _ _ hpre
  have hcyc : iter (rotate 5 8) (381 + 324) (1024, 0) = iter (rotate 5 8) 381 (1024, 0) := by
    show iter (rotate 5 8) 705 (1024, 0) = _
    rw [hst, hst2]
  intro n
  exact iter_all_of_cycle _ _ _ 381 324 (by norm_num) hcyc hall n

set_option maxRecDepth 4000 in
theorem stateJ_all : ∀ n, qMain (stateJ n) = true := by
  have h1 : iterChk (rotate 9 7) qMain 200 (1024, 0) = some (127, 1015) := by decide
  have h2 : iterChk (rotate 9 7) qMain 200 (127, 1015) = some (-1001, 217) := by decide
  have h3 : iterChk (rotate 9 7) qMain 200 (-1001, 217) = some (-320, -973) := by decide
  have h4 : iterChk (rotate 9 7) qMain 157 (-320, -973) = some (-975, 313) := by decide
  have hpt : iterChk (rotate 9 7) qMain 130 (1024, 0) = some (-975, 313) := by decide
  have hfull : iterChk (rotate 9 7) qMain 757 (1024, 0) = some (-975, 313) := by
    have e : (757 : Nat) = 200 + (200 + (200 + (157))) := by norm_num
    rw [e, iterChk_add_some _ _ _ _ _ _ h1, iterChk_add_some _ _ _ _ _ _ h2, iterChk_add_some _ _ _ _ _ _ h3]
    exact h4
  have hpre : iterChk (rotate 9 7) qMain 130 (1024, 0) = some (-975, 313) := by
    exact hpt
  obtain ⟨hst, hall⟩ := iterChk_spec _ _ _ _ _ hfull
  obtain ⟨hst2, _⟩ := iterChk_spec _ _ _ _ _ hpre
  have hcyc : iter (rotate 9 7) (130 + 627) (1024, 0) = iter (rotate 9 7) 130 (1024, 0) := by
    show iter (rotate 9 7) 757 (1024, 0) = _
    rw [hst, hst2]
  intro n
  exact iter_all_of_cycle _ _ _ 130 627 (by norm_num) hcyc hall n

set_option maxRecDepth 4000 in
theorem stateB_all : ∀ n, qMain (stateB n) = true := by
  have h1 : iterChk (rotate 5 8) qMain 200 (0, 1024) = some (745, -702) := by decide
  have h2 : iterChk (rotate 5 8) qMain 200 (745, -702) = some (-1022, 54) := by decide
  have h3 : iterChk (rotate 5 8) qMain 200 (-1022, 54) = some (803, 634) := by decide
  have h4 : iterChk (rotate 5 8) qMain 200 (803, 634) = some (-96, -1020) := by decide
  have h5 : iterChk (rotate 5 8) qMain 200 (-96, -1020) = some (-547, 865) := by decide
  have h6 : iterChk (rotate 5 8) qMain 200 (-547, 865) = some (999, -223) := by decide
  have h7 : iterChk (rotate 5 8) qMain 69 (999, -223) = some (493, 896) := by decide
  have hpt : iterChk (rotate 5 8) qMain 145 (-96, -1020) = some (493, 896) := by decide
  have hfull : iterChk (rotate 5 8) qMain 1269 (0, 1024) = some (493, 896) := by
    have e : (1269 : Nat) = 200 + (200 + (200 + (200 + (200 + (200 + (69)))))) := by norm_num
    rw [e, iterChk_add_some _ _ _ _ _ _ h1, iterChk_add_some _ _ _ _ _ _ h2, iterChk_add_some _ _ _ _ _ _ h3, iterChk_add_some _ _ _ _ _ _ h4, iterChk_add_some _ _ _ _ _ _ h5, iterChk_add_some _ _ _ _ _ _ h6]
    exact h7
  have hpre : iterChk (rotate 5 8) qMain 945 (0, 1024) = some (493, 896) := by
    have e2 : (945 : Nat) = 200 + (200 + (200 + (200 + (145)))) := by norm_num
    rw [e2, iterChk_add_some _ _ _ _ _ _ h1, iterChk_add_some _ _ _ _ _ _ h2, iterChk_add_some _ _ _ _ _ _ h3, iterChk_add_some _ _ _ _ _ _ h4]
    exact hpt
  obtain ⟨hst, hall⟩ := iterChk_spec _ _ _ _ _ hfull
  obtain ⟨hst2, _⟩ := iterChk_spec _ _ _ _ _ hpre
  have hcyc : iter (rotate 5 8) (945 + 324) (0, 1024) = iter (rotate 5 8) 945 (0, 1024) := by
    show iter (rotate 5 8) 1269 (0, 1024) = _
    rw [hst, hst2]
  intro n
  exact iter_all_of_cycle _ _ _ 945 324 (by norm_num) hcyc hall n

set_option maxRecDepth 4000 in
theorem stateJalt_all : ∀ n, qRad (stateJalt n) = true := by
  have h1 : iterChk (rotate 9 7) qRad 200 (0, 1024) = some (-1020, 99) := by decide
  have h2 : iterChk (rotate 9 7) qRad 200 (-1020, 99) = some (-188, -1007) := by decide
  have h3 : iterChk (rotate 9 7) qRad 200 (-188, -1007) = some (975, -312) := by decide
  have h4 : iterChk (rotate 9 7) qRad 200 (975, -312) = some (430, 928) := by decide
  have h5 : iterChk (rotate 9 7) qRad 24 (430, 928) = some (-975, 313) := by decide
  have hpt : iterChk (rotate 9 7) qRad 197 (0, 1024) = some (-975, 313) := by decide
  have hfull : iterChk (rotate 9 7) qRad 824 (0, 1024) = some (-975, 313) := by
    have e : (824 : Nat) = 200 + (200 + (200 + (200 + (24)))) := by norm_num
    rw [e, iterChk_add_some _ _ _ _ _ _ h1, iterChk_add_some _ _ _ _ _ _ h2, iterChk_add_some _ _ _ _ _ _ h3, iterChk_add_some _ _ _ _ _ _ h4]
    exact h5
  have hpre : iterChk (rotate 9 7) qRad 197 (0, 1024) = some (-975, 313) := by
    exact hpt
  obtain ⟨hst, hall⟩ := iterChk_spec _ _ _ _ _ hfull
  obtain ⟨hst2, _⟩ := iterChk_spec _ _ _ _ _ hpre
  have hcyc : iter (rotate 9 7) (197 + 627) (0, 1024) = iter (rotate 9 7) 197 (0, 1024) := by
    show iter (rotate 9 7) 824 (0, 1024) = _
    rw [hst, hst2]
  intro n
  exact iter_all_of_cycle _ _ _ 197 627 (by norm_num) hcyc hall n

set_option maxRecDepth 4000 in
theorem stateAalt_all : ∀ n, qRad (stateAalt n) = true := by
  have h1 : iterChk (rotate 5 7) qRad 200 (1024, 0) = some (112, 1017) := by decide
  have h2 : iterChk (rotate 5 7) qRad 200 (112, 1017) = some (-1006, 189) := by decide
  have h3 : iterChk (rotate 5 7) qRad 200 (-1006, 189) = some (-240, -996) := by decide
  have h4 : iterChk (rotate 5 7) qRad 48 (-240, -996) = some (1023, 39) := by decide
  have hpt : iterChk (rotate 5 7) qRad 1 (1024, 0) = some (1023, 39) := by decide
  have hfull : iterChk (rotate 5 7) qRad 648 (1024, 0) = some (1023, 39) := by
    have e : (648 : Nat) = 200 + (200 + (200 + (48))) := by norm_num
    rw [e, iterChk_add_some _ _ _ _ _ _ h1, iterChk_add_some _ _ _ _ _ _ h2, iterChk_add_some _ _ _ _ _ _ h3]
    exact h4
  have hpre : iterChk (rotate 5 7) qRad 1 (1024, 0) = some (1023, 39) := by
    exact hpt
  obtain ⟨hst, hall⟩ := iterChk_spec _ _ _ _ _ hfull
  obtain ⟨hst2, _⟩ := iterChk_spec _ _ _ _ _ hpre
  have hcyc : iter (rotate 5 7) (1 + 647) (1024, 0) = iter (rotate 5 7) 1 (1024, 0) := by
    show iter (rotate 5 7) 648 (1024, 0) = _
    rw [hst, hst2]
  intro n
  exact iter_all_of_cycle _ _ _ 1 647 (by norm_num) hcyc hall n

theorem qCoord_elim {p : Int × Int} (h : qCoord p = true) :
    |p.1| ≤ 1024 ∧ |p.2| ≤ 1024 := by
  simpa [qCoord] using h

theorem qRad_elim {p : Int × Int} (h : qRad p = true) :
    |radSq p - 1048576| ≤ 4559 := by
  simpa [qRad] using h

theorem qLinA_elim {p : Int × Int} (h : qLinA p = true) :
    1024 * |p.2| + 3072 * |p.1| ≤ 3320000 := by
  simpa [qLinA] using h

theorem qMain_parts {p : Int × Int} (h : qMain p = true) :
    qCoord p = true ∧ qRad p = true := by
  simpa [qMain] using h

theorem qFullA_parts {p : Int × Int} (h : qFullA p = true) :
    qCoord p = true ∧ qRad p = true ∧ qLinA p = true := by
  simpa [qFullA, and_assoc] using h

/-- C3: `rotate` computes `newCos = cos - ((multiplier*sin) >> shift)` and
`newSin = sin + ((multiplier*cos) >> shift)` from the original `cos`, then
`correction = (3*1024^2 - newCos^2 - newSin^2) >> 11`, and returns
`(newCos*correction) >> 10` and `(newSin*correction) >> 10` — exactly the
algorithm stated in the spec (`rotateSpec` is a transcription of the spec's
pseudocode). -/
theorem rotate_eq_rotateSpec : ∀ (m : Int) (s : Nat) (p : Int × Int),
    rotate m s p = rotateSpec m s p := by
  intro m s p
  simp only [rotate, rotateSpec]
  norm_num [pow_two]

/-- C4: starting from either of the program's canonical start vectors
`(1024, 0)` and `(0, 1024)` and repeatedly applying `rotate` with any of the
program's parameter pairs `(5,8)`, `(9,7)`, `(5,7)`, the squared magnitude
`cos^2 + sin^2` stays within 4559 of `1024^2 = 1048576` forever (in
particular over several thousand iterations): no unbounded drift. -/
theorem rotation_stability : ∀ n : Nat,
    |radSq (stateI n) - 1048576| ≤ 4559 ∧
    |radSq (stateJ n) - 1048576| ≤ 4559 ∧
    |radSq (stateA n) - 1048576| ≤ 4559 ∧
    |radSq (stateB n) - 1048576| ≤ 4559 ∧
    |radSq (stateJalt n) - 1048576| ≤ 4559 ∧
    |radSq (stateAalt n) - 1048576| ≤ 4559 := by
  intro n
  exact ⟨qRad_elim (qMain_parts (stateI_all n)).2,
    qRad_elim (qMain_parts (stateJ_all n)).2,
    qRad_elim (qFullA_parts (stateA_all n)).2.1,
    qRad_elim (qMain_parts (stateB_all n)).2,
    qRad_elim (stateJalt_all n),
    qRad_elim (stateAalt_all n)⟩

theorem sar_le_sar (n : Nat) {a b : Int} (h : a ≤ b) : sar a n ≤ sar b n :=
  Int.ediv_le_ediv (by positivity) h

theorem abs_mul_le {a b A B : Int} (ha : |a| ≤ A) (hb : |b| ≤ B) :
    |a * b| ≤ A * B := by
  rw [abs_mul]
  exact mul_le_mul ha hb (abs_nonneg b) (le_trans (abs_nonneg a) ha)

theorem abs_sar_le {a c r : Int} {n : Nat} (h : |a| ≤ c)
    (h1 : -r ≤ sar (-c) n) (h2 : sar c n ≤ r) : |sar a n| ≤ r := by
  obtain ⟨hl, hr⟩ := abs_le.mp h
  rw [abs_le]
  exact ⟨le_trans h1 (sar_le_sar n hl), le_trans (sar_le_sar n hr) h2⟩

theorem fits_of_abs {v c : Int} (h : |v| ≤ c) (hc : c ≤ 2147483647) :
    fitsI32B v = true := by
  simp only [fitsI32B, decide_eq_true_eq]
  obtain ⟨l, r⟩ := abs_le.mp h
  constructor <;> linarith

/-- The components named in `rotateNoOverflowB` are exactly the values
`rotate` computes. -/
theorem rotate_eq_parts (m : Int) (s : Nat) (p : Int × Int) :
    rotate m s p = (sar (rotNewCos m s p * rotCorr m s p) 10,
      sar (rotNewSin m s p * rotCorr m s p) 10) := rfl

theorem rotateNoOverflowB_of_bounds (m : Int) (s : Nat) (p : Int × Int)
    (hm : |m| ≤ 9) (hs : s = 7 ∨ s = 8)
    (h1 : |p.1| ≤ 1024) (h2 : |p.2| ≤ 1024) :
    rotateNoOverflowB m s p = true := by
  have ht1 : |m * p.2| ≤ 9216 := le_trans (abs_mul_le hm h2) (by norm_num)
  have ht2 : |m * p.1| ≤ 9216 := le_trans (abs_mul_le hm h1) (by norm_num)
  have hst1 : |sar (m * p.2) s| ≤ 72 := by
    rcases hs with rfl | rfl
    · exact abs_sar_le ht1 (by decide) (by decide)
    · exact abs_sar_le ht1 (by decide) (by decide)
  have hst2 : |sar (m * p.1) s| ≤ 72 := by
    rcases hs with rfl | rfl
    · exact abs_sar_le ht2 (by decide) (by decide)
    · exact abs_sar_le ht2 (by decide) (by decide)
  have hx : |rotNewCos m s p| ≤ 1096 := by
    obtain ⟨a1, a2⟩ := abs_le.mp h1
    obtain ⟨b1, b2⟩ := abs_le.mp hst1
    rw [rotNewCos, abs_le]
    constructor <;> linarith
  have hy : |rotNewSin m s p| ≤ 1096 := by
    obtain ⟨a1, a2⟩ := abs_le.mp h2
    obtain ⟨b1, b2⟩ := abs_le.mp hst2
    rw [rotNewSin, abs_le]
    constructor <;> linarith
  have hsq1 : |rotNewCos m s p * rotNewCos m s p| ≤ 1096 * 1096 := abs_mul_le hx hx
  have hsq2 : |rotNewSin m s p * rotNewSin m s p| ≤ 1096 * 1096 := abs_mul_le hy hy
  have hsq1b := abs_le.mp hsq1
  have hsq2b := abs_le.mp hsq2
  have hsq1n : 0 ≤ rotNewCos m s p * rotNewCos m s p := mul_self_nonneg _
  have hsq2n : 0 ≤ rotNewSin m s p * rotNewSin m s p := mul_self_nonneg _
  have hd1 : 1944512 ≤ rotD1 m s p ∧ rotD1 m s p ≤ 3145728 := by
    rw [rotD1]
    constructor <;> [linarith [hsq1b.2]; linarith]
  have hd2 : 743296 ≤ rotD2 m s p ∧ rotD2 m s p ≤ 3145728 := by
    rw [rotD2]
    constructor <;> [linarith [hd1.1, hsq2b.2]; linarith [hd1.2]]
  have hcorr : 362 ≤ rotCorr m s p ∧ rotCorr m s p ≤ 1536 := by
    rw [rotCorr]
    constructor
    · calc (362 : Int) = sar 743296 11 := by decide
        _ ≤ sar (rotD2 m s p) 11 := sar_le_sar 11 hd2.1
    · calc sar (rotD2 m s p) 11 ≤ sar 3145728 11 := sar_le_sar 11 hd2.2
        _ = 1536 := by decide
  have hcorra : |rotCorr m s p| ≤ 1536 := abs_le.mpr ⟨by linarith [hcorr.1], hcorr.2⟩
  have hp1 : |rotNewCos m s p * rotCorr m s p| ≤ 1096 * 1536 := abs_mul_le hx hcorra
  have hp2 : |rotNewSin m s p * rotCorr m s p| ≤ 1096 * 1536 := abs_mul_le hy hcorra
  have hp1n : |rotNewCos m s p * rotCorr m s p| ≤ 1683456 := by linarith [hp1]
  have hp2n : |rotNewSin m s p * rotCorr m s p| ≤ 1683456 := by linarith [hp2]
  have hsp1 : |sar (rotNewCos m s p * rotCorr m s p) 10| ≤ 1644 :=
    abs_sar_le hp1n (by decide) (by decide)
  have hsp2 : |sar (rotNewSin m s p * rotCorr m s p) 10| ≤ 1644 :=
    abs_sar_le hp2n (by decide) (by decide)
  have hd1a : |rotD1 m s p| ≤ 3145728 := abs_le.mpr ⟨by linarith [hd1.1], hd1.2⟩
  have hd2a : |rotD2 m s p| ≤ 3145728 := abs_le.mpr ⟨by linarith [hd2.1], hd2.2⟩
  simp only [rotateNoOverflowB, Bool.and_eq_true]
  exact ⟨⟨⟨⟨⟨⟨⟨⟨⟨⟨⟨⟨fits_of_abs ht1 (by norm_num), fits_of_abs hx (by norm_num)⟩,
    fits_of_abs ht2 (by norm_num)⟩, fits_of_abs hy (by norm_num)⟩,
    fits_of_abs hsq1 (by norm_num)⟩, fits_of_abs hsq2 (by norm_num)⟩,
    fits_of_abs hd1a (by norm_num)⟩, fits_of_abs hd2a (by norm_num)⟩,
    fits_of_abs hcorra (by norm_num)⟩, fits_of_abs hp1n (by norm_num)⟩,
    fits_of_abs hp2n (by norm_num)⟩, fits_of_abs hsp1 (by norm_num)⟩,
    fits_of_abs hsp2 (by norm_num)⟩

/-- C5: along every state reachable by the program's repeated `rotate`
applications with its actual parameter pairs — `(5,8)` on the tube-sweep
states from `(1024, 0)` and on orientation `B` from `(0, 1024)`, `(9,7)` on
the torus-sweep states from `(1024, 0)`, `(5,7)` on orientation `A` from
`(0, 1024)` — no intermediate arithmetic result inside `rotate` (the
products, shifted updates, squares, correction subtractions, correction and
correction products) overflows a signed 32-bit accumulator. -/
theorem rotate_no_overflow : ∀ n : Nat,
    rotateNoOverflowB 5 8 (stateI n) = true ∧
    rotateNoOverflowB 9 7 (stateJ n) = true ∧
    rotateNoOverflowB 5 7 (stateA n) = true ∧
    rotateNoOverflowB 5 8 (stateB n) = true := by
  intro n
  obtain ⟨hI1, hI2⟩ := qCoord_elim (qMain_parts (stateI_all n)).1
  obtain ⟨hJ1, hJ2⟩ := qCoord_elim (qMain_parts (stateJ_all n)).1
  obtain ⟨hA1, hA2⟩ := qCoord_elim (qFullA_parts (stateA_all n)).1
  obtain ⟨hB1, hB2⟩ := qCoord_elim (qMain_parts (stateB_all n)).1
  exact ⟨rotateNoOverflowB_of_bounds _ _ _ (by norm_num) (Or.inr rfl) hI1 hI2,
    rotateNoOverflowB_of_bounds _ _ _ (by norm_num) (Or.inl rfl) hJ1 hJ2,
    rotateNoOverflowB_of_bounds _ _ _ (by norm_num) (Or.inl rfl) hA1 hA2,
    rotateNoOverflowB_of_bounds _ _ _ (by norm_num) (Or.inr rfl) hB1 hB2⟩

theorem sar10_cancel (w : Int) : sar (1024 * w) 10 = w := by
  show (1024 * w) / 1024 = w
  exact Int.mul_ediv_cancel_left w (by norm_num)

theorem sx0_bounds (v : Vecs) (hcj : |v.cos_j| ≤ 1024) :
    1024 ≤ sx0 v ∧ sx0 v ≤ 3072 := by
  obtain ⟨l, r⟩ := abs_le.mp hcj
  simp only [sx0, minor_radius_r1, major_radius_r2]
  constructor <;> linarith

theorem sx3_abs (v : Vecs) (hcj : |v.cos_j| ≤ 1024) :
    |sx3 v| ≤ 3 * |v.sin_i| := by
  obtain ⟨hx0l, hx0r⟩ := sx0_bounds v hcj
  have h0 : 0 ≤ sx0 v := by linarith
  have hmm : |v.sin_i| * sx0 v ≤ |v.sin_i| * 3072 :=
    mul_le_mul_of_nonneg_left hx0r (abs_nonneg _)
  have hup : v.sin_i * sx0 v ≤ 1024 * (3 * |v.sin_i|) := by
    have h1 : v.sin_i * sx0 v ≤ |v.sin_i| * sx0 v :=
      mul_le_mul_of_nonneg_right (le_abs_self _) h0
    have h2 : |v.sin_i| * 3072 = 1024 * (3 * |v.sin_i|) := by ring
    linarith
  have hlo : 1024 * (-(3 * |v.sin_i|)) ≤ v.sin_i * sx0 v := by
    have h1 : -(|v.sin_i|) * sx0 v ≤ v.sin_i * sx0 v :=
      mul_le_mul_of_nonneg_right (neg_abs_le _) h0
    have h2 : -(|v.sin_i|) * sx0 v = -(|v.sin_i| * sx0 v) := by ring
    have h3 : 1024 * (-(3 * |v.sin_i|)) = -(|v.sin_i| * 3072) := by ring
    linarith
  have hu := sar_le_sar 10 hup
  have hl := sar_le_sar 10 hlo
  rw [sar10_cancel] at hu hl
  rw [abs_le]
  exact ⟨by rw [sx3]; linarith, by rw [sx3]; linarith⟩

theorem sx5_abs (v : Vecs) (hsj : |v.sin_j| ≤ 1024) : |sx5 v| ≤ |v.sin_A| := by
  have habs : |v.sin_A * v.sin_j| ≤ |v.sin_A| * 1024 := by
    rw [abs_mul]
    exact mul_le_mul_of_nonneg_left hsj (abs_nonneg _)
  have hup : v.sin_A * v.sin_j ≤ 1024 * |v.sin_A| := by
    have := le_abs_self (v.sin_A * v.sin_j)
    have h2 : |v.sin_A| * 1024 = 1024 * |v.sin_A| := by ring
    linarith
  have hlo : 1024 * (-|v.sin_A|) ≤ v.sin_A * v.sin_j := by
    have := neg_abs_le (v.sin_A * v.sin_j)
    have h2 : 1024 * (-|v.sin_A|) = -(|v.sin_A| * 1024) := by ring
    linarith
  have hu := sar_le_sar 10 hup
  have hl := sar_le_sar 10 hlo
  rw [sar10_cancel] at hu hl
  rw [abs_le]
  exact ⟨by rw [sx5]; linarith, by rw [sx5]; linarith⟩

theorem depth_term_eq (v : Vecs) :
    sx6 v - distance_constant_k2 = 1024 * sx5 v + v.cos_A * sx3 v := by
  simp only [sx6, minor_radius_r1]
  ring

theorem depth_term_bound (v : Vecs) (hsi : |v.sin_i| ≤ 1024)
    (hcj : |v.cos_j| ≤ 1024) (hsj : |v.sin_j| ≤ 1024)
    (hA : 1024 * |v.sin_A| + 3072 * |v.cos_A| ≤ 3320000) :
    |sx6 v - distance_constant_k2| ≤ 3320000 := by
  have h3 := sx3_abs v hcj
  have h5 := sx5_abs v hsj
  have h15 : |1024 * sx5 v| ≤ 1024 * |v.sin_A| := by
    rw [abs_mul, show |(1024 : Int)| = 1024 from rfl]
    exact mul_le_mul_of_nonneg_left h5 (by norm_num)
  have hca : |v.cos_A * sx3 v| ≤ 3072 * |v.cos_A| := by
    have h1 : |v.cos_A * sx3 v| ≤ |v.cos_A| * (3 * |v.sin_i|) :=
      abs_mul_le (le_refl _) h3
    have h2 : |v.cos_A| * (3 * |v.sin_i|) ≤ |v.cos_A| * 3072 :=
      mul_le_mul_of_nonneg_left (by linarith) (abs_nonneg _)
    have h4 : |v.cos_A| * 3072 = 3072 * |v.cos_A| := by ring
    linarith
  calc |sx6 v - distance_constant_k2|
      = |1024 * sx5 v + v.cos_A * sx3 v| := by rw [depth_term_eq]
    _ ≤ |1024 * sx5 v| + |v.cos_A * sx3 v| := abs_add _ _
    _ ≤ 3320000 := by linarith

theorem zzRaw_range (v : Vecs) (hsi : |v.sin_i| ≤ 1024)
    (hcj : |v.cos_j| ≤ 1024) (hsj : |v.sin_j| ≤ 1024)
    (hA : 1024 * |v.sin_A| + 3072 * |v.cos_A| ≤ 3320000) :
    -102 ≤ zzRaw v ∧ zzRaw v ≤ 101 := by
  have hb := abs_le.mp (depth_term_bound v hsi hcj hsj hA)
  constructor
  · calc (-102 : Int) = sar (-3320000) 15 := by decide
      _ ≤ sar (sx6 v - distance_constant_k2) 15 := sar_le_sar 15 hb.1
  · calc zzRaw v ≤ sar 3320000 15 := sar_le_sar 15 hb.2
      _ = 101 := by decide

theorem progVecs_hyps (n k m : Nat) :
    |(progVecs n k m).sin_i| ≤ 1024 ∧ |(progVecs n k m).cos_j| ≤ 1024 ∧
    |(progVecs n k m).sin_j| ≤ 1024 ∧
    1024 * |(progVecs n k m).sin_A| + 3072 * |(progVecs n k m).cos_A| ≤ 3320000 := by
  obtain ⟨hI1, hI2⟩ := qCoord_elim (qMain_parts (stateI_all k)).1
  obtain ⟨hJ1, hJ2⟩ := qCoord_elim (qMain_parts (stateJ_all m)).1
  have hA := qLinA_elim (qFullA_parts (stateA_all n)).2.2
  exact ⟨hI2, hJ1, hJ2, hA⟩

/-- C6: the depth conversion `i8::try_from((x6 - k2) >> 15)` aborts (`none`,
modelling the `expect` abort) exactly when the raw value lies outside the
signed 8-bit range, rather than truncating; an aborted conversion aborts the
whole sample step; and for the program's fixed geometry constants and every
reachable loop state (any frame `n`, any tube index `k`, any torus index
`m`) the raw value lies in `[-102, 101]`, so the abort branch is never
taken. -/
theorem depth_proxy_abort :
    (∀ r : Int, zzTry r = none ↔ r < -128 ∨ 127 < r) ∧
    (∀ (v : Vecs) (b : Buffers), zzTry (zzRaw v) = none → sampleStep v b = none) ∧
    (∀ n k m : Nat, zzTry (zzRaw (progVecs n k m)) = some (zzRaw (progVecs n k m))) := by
  refine ⟨fun r => ?_, fun v b h => ?_, fun n k m => ?_⟩
  · constructor
    · intro hc
      by_contra hno
      rw [zzTry, if_pos (by omega)] at hc
      exact Option.noConfusion hc
    · intro hc
      rw [zzTry, if_neg (by omega)]
  · simp only [sampleStep, h]
  · obtain ⟨h1, h2, h3, h4⟩ := progVecs_hyps n k m
    obtain ⟨hl, hr⟩ := zzRaw_range _ h1 h2 h3 h4
    rw [zzTry, if_pos ⟨by omega, by omega⟩]

/-- Witness for C6: a value outside the range makes the conversion abort,
a state whose raw depth value overflows aborts the sample step, and the
first sample of the first frame converts successfully. -/
theorem depth_proxy_abort_witness :
    zzTry 200 = none ∧ sampleStep vBig initBuffers = none ∧
    zzTry (zzRaw (progVecs 0 0 0)) = some (zzRaw (progVecs 0 0 0)) :=
  ⟨(depth_proxy_abort.1 200).mpr (Or.inr (by norm_num)),
    depth_proxy_abort.2.1 vBig initBuffers (by decide),
    depth_proxy_abort.2.2 0 0 0⟩

/-- C10: for every reachable state of the four unit-vector pairs during the
sampling sweep, the depth term `x6 = k2 + r1*1024*x5 + cos_A*x3` is strictly
positive, so the integer divisions computing the screen coordinates never
divide by zero (and never hit the `i32::MIN / -1` case): the projection is
total. -/
theorem projection_total : ∀ n k m : Nat, 0 < sx6 (progVecs n k m) := by
  intro n k m
  obtain ⟨h1, h2, h3, h4⟩ := progVecs_hyps n k m
  have hb := abs_le.mp (depth_term_bound _ h1 h2 h3 h4)
  have hk2 : distance_constant_k2 = 5242880 := by norm_num [distance_constant_k2]
  linarith [hb.1]

theorem writeSample_guard_true (b : Buffers) (s : Sample)
    (hb : inBoundsB s.x s.y = true)
    (hlt : s.zz < b.depths (cellIndex s.x s.y)) :
    (writeSample b s).chars = Function.update b.chars (cellIndex s.x s.y) s.ch ∧
    (writeSample b s).depths = Function.update b.depths (cellIndex s.x s.y) s.zz := by
  simp only [writeSample]
  rw [if_pos (by rw [hb, Bool.true_and]; exact decide_eq_true hlt)]
  exact ⟨rfl, rfl⟩

theorem writeSample_guard_false (b : Buffers) (s : Sample)
    (h : ¬ (inBoundsB s.x s.y = true ∧ s.zz < b.depths (cellIndex s.x s.y))) :
    writeSample b s = b := by
  simp only [writeSample]
  split_ifs with hc
  · rw [Bool.and_eq_true, decide_eq_true_eq] at hc
    exact absurd hc h
  · rfl

theorem foldl_min_le_init (l : List Sample) (a : Int) :
    l.foldl (fun acc s => min acc s.zz) a ≤ a := by
  induction l generalizing a with
  | nil => exact le_refl a
  | cons s t ih => exact le_trans (ih (min a s.zz)) (min_le_left _ _)

theorem foldl_min_le_mem {l : List Sample} {s : Sample} (hs : s ∈ l) (a : Int) :
    l.foldl (fun acc t => min acc t.zz) a ≤ s.zz := by
  induction l generalizing a with
  | nil => cases hs
  | cons t r ih =>
      rcases List.mem_cons.mp hs with rfl | hmem
      · exact le_trans (foldl_min_le_init r _) (min_le_right _ _)
      · exact ih hmem _

/-- The per-cell invariant of the sampling fold: the stored depth is the
running minimum of candidate depths, and the stored character is either
untouched or comes from a candidate that strictly improved on the depth held
at the start of the fold. -/
theorem process_invariant (l : List Sample) (b : Buffers) (cell : Nat) :
    (processSamples b l).depths cell =
      (candsFor l cell).foldl (fun a s => min a s.zz) (b.depths cell) ∧
    (((processSamples b l).chars cell = b.chars cell ∧
      (processSamples b l).depths cell = b.depths cell) ∨
      ∃ s ∈ candsFor l cell, (processSamples b l).depths cell = s.zz ∧
        (processSamples b l).chars cell = s.ch ∧ s.zz < b.depths cell) := by
  induction l generalizing b with
  | nil => exact ⟨rfl, Or.inl ⟨rfl, rfl⟩⟩
  | cons s t ih =>
      have hps : processSamples b (s :: t) = processSamples (writeSample b s) t := rfl
      by_cases hpred : (inBoundsB s.x s.y && (cellIndex s.x s.y == cell)) = true
      · obtain ⟨hb, hcellb⟩ := Bool.and_eq_true .. |>.mp hpred
        have hcell : cellIndex s.x s.y = cell := beq_iff_eq.mp hcellb
        have hcands : candsFor (s :: t) cell = s :: candsFor t cell := by
          simp only [candsFor, List.filter_cons, hpred, if_true]
        by_cases hlt : s.zz < b.depths cell
        · have hw := writeSample_guard_true b s hb (by rw [hcell]; exact hlt)
          have hdep : (writeSample b s).depths cell = s.zz := by
            rw [hw.2, hcell, Function.update_same]
          have hch : (writeSample b s).chars cell = s.ch := by
            rw [hw.1, hcell, Function.update_same]
          obtain ⟨ih1, ih2⟩ := ih (writeSample b s)
          constructor
          · rw [hps, ih1, hdep, hcands, List.foldl_cons,
              min_eq_right (le_of_lt hlt)]
          · rcases ih2 with ⟨hc1, hc2⟩ | ⟨u, hu, h1, h2, h3⟩
            · right
              refine ⟨s, by rw [hcands]; exact List.mem_cons_self s _, ?_, ?_, hlt⟩
              · rw [hps, hc2, hdep]
              · rw [hps, hc1, hch]
            · right
              refine ⟨u, by rw [hcands]; exact List.mem_cons_of_mem s hu, ?_, ?_, ?_⟩
              · rw [hps]; exact h1
              · rw [hps]; exact h2
              · rw [hdep] at h3
                exact lt_trans h3 hlt
        · have hw : writeSample b s = b := by
            apply writeSample_guard_false
            rintro ⟨_, hzz⟩
            rw [hcell] at hzz
            exact hlt hzz
          have hps2 : processSamples b (s :: t) = processSamples b t := by
            rw [hps, hw]
          obtain ⟨ih1, ih2⟩ := ih b
          constructor
          · rw [hps2, ih1, hcands, List.foldl_cons,
              min_eq_left (le_of_not_lt hlt)]
          · rcases ih2 with ⟨hc1, hc2⟩ | ⟨u, hu, h1, h2, h3⟩
            · left
              exact ⟨by rw [hps2]; exact hc1, by rw [hps2]; exact hc2⟩
            · right
              exact ⟨u, by rw [hcands]; exact List.mem_cons_of_mem s hu,
                by rw [hps2]; exact h1, by rw [hps2]; exact h2, h3⟩
      · have hpf : (inBoundsB s.x s.y && (cellIndex s.x s.y == cell)) = false := by
          simpa using hpred
        have hcands : candsFor (s :: t) cell = candsFor t cell := by
          simp only [candsFor, List.filter_cons, hpf, Bool.false_eq_true, if_false]
        have hkeep : (writeSample b s).depths cell = b.depths cell ∧
            (writeSample b s).chars cell = b.chars cell := by
          by_cases hb : inBoundsB s.x s.y = true
          · have hne : cellIndex s.x s.y ≠ cell := by
              intro he
              apply hpred
              rw [Bool.and_eq_true]
              exact ⟨hb, beq_iff_eq.mpr he⟩
            by_cases hlt : s.zz < b.depths (cellIndex s.x s.y)
            · have hw := writeSample_guard_true b s hb hlt
              constructor
              · rw [hw.2]; exact Function.update_noteq (Ne.symm hne) _ _
              · rw [hw.1]; exact Function.update_noteq (Ne.symm hne) _ _
            · rw [writeSample_guard_false b s (fun hc => hlt hc.2)]
              exact ⟨rfl, rfl⟩
          · rw [writeSample_guard_false b s (fun hc => hb hc.1)]
            exact ⟨rfl, rfl⟩
        obtain ⟨ih1, ih2⟩ := ih (writeSample b s)
        constructor
        · rw [hps, ih1, hkeep.1, hcands]
        · rcases ih2 with ⟨h1, h2⟩ | ⟨u, hu, h1, h2, h3⟩
          · left
            exact ⟨by rw [hps, h1, hkeep.2], by rw [hps, h2, hkeep.1]⟩
          · right
            refine ⟨u, by rw [hcands]; exact hu, by rw [hps]; exact h1,
              by rw [hps]; exact h2, ?_⟩
            rw [hkeep.1] at h3
            exact h3

/-- C1: starting from freshly reset buffers, for any list of candidate
samples and any screen cell, if two or more samples pass the bounds check
and map to that cell (all with depth below the reset sentinel 127), the
character finally stored at the cell comes from a candidate whose depth
equals the minimum candidate depth, the stored depth is that minimum; and a
single write overwrites a cell exactly when the sample is in bounds and its
depth is strictly below the depth currently stored for that cell. -/
theorem nearest_wins :
    (∀ (l : List Sample) (cell : Nat),
      2 ≤ (candsFor l cell).length →
      (∀ s ∈ candsFor l cell, s.zz < 127) →
      ∃ s ∈ candsFor l cell, s.zz = minDepth cell l ∧
        (processSamples initBuffers l).chars cell = s.ch ∧
        (processSamples initBuffers l).depths cell = minDepth cell l ∧
        ∀ t ∈ candsFor l cell, minDepth cell l ≤ t.zz) ∧
    (∀ (b : Buffers) (s : Sample),
      writeSample b s ≠ b ↔
        (inBoundsB s.x s.y = true ∧ s.zz < b.depths (cellIndex s.x s.y))) := by
  constructor
  · intro l cell hlen hall
    obtain ⟨h1, h2⟩ := process_invariant l initBuffers cell
    have hinit : initBuffers.depths cell = 127 := rfl
    obtain ⟨s0, hs0⟩ : ∃ s0, s0 ∈ candsFor l cell := by
      cases hc : candsFor l cell with
      | nil => rw [hc] at hlen; simp at hlen
      | cons a r => exact ⟨a, hc ▸ List.mem_cons_self a r⟩
    have hmlt : minDepth cell l < 127 :=
      lt_of_le_of_lt (foldl_min_le_mem hs0 127) (hall s0 hs0)
    have hdm : (processSamples initBuffers l).depths cell = minDepth cell l := by
      rw [h1, hinit]; rfl
    rcases h2 with ⟨_, hc2⟩ | ⟨u, hu, hd, hch, _⟩
    · exfalso
      rw [hdm, hinit] at hc2
      omega
    · refine ⟨u, hu, ?_, hch, hdm, fun r hr => foldl_min_le_mem hr 127⟩
      rw [← hd, hdm]
  · intro b s
    constructor
    · intro hne
      by_contra hno
      exact hne (writeSample_guard_false b s hno)
    · rintro ⟨hb, hlt⟩ heq
      have hw := writeSample_guard_true b s hb hlt
      have hcontr : b.depths (cellIndex s.x s.y) = s.zz := by
        conv_lhs => rw [← heq]
        rw [hw.2, Function.update_same]
      omega

/-- Witness for C1: two samples at screen cell `(5, 3)` (flat index 245)
with depths 10 and 7; the nearer depth-7 sample's character survives. -/
theorem nearest_wins_witness :
    ∃ s ∈ candsFor twoSamples 245, s.zz = minDepth 245 twoSamples ∧
      (processSamples initBuffers twoSamples).chars 245 = s.ch ∧
      (processSamples initBuffers twoSamples).depths 245 = minDepth 245 twoSamples ∧
      ∀ t ∈ candsFor twoSamples 245, minDepth 245 twoSamples ≤ t.zz :=
  nearest_wins.1 twoSamples 245 (by decide) (by decide)

/-- C2: no write to either buffer occurs unless `0 < x < 80` and
`0 < y < 22`; an out-of-bounds sample leaves both buffers exactly unchanged
(no wraparound, no clamping). -/
theorem bounds_gate (b : Buffers) (s : Sample)
    (h : ¬ (0 < s.x ∧ s.x < 80 ∧ 0 < s.y ∧ s.y < 22)) : writeSample b s = b := by
  apply writeSample_guard_false
  rintro ⟨hb, _⟩
  apply h
  simp only [inBoundsB, Bool.and_eq_true, decide_eq_true_eq] at hb
  omega

/-- Witness for C2: a sample projected to `x = 100` is discarded. -/
theorem bounds_gate_witness :
    writeSample initBuffers ⟨100, 3, 5, '@'⟩ = initBuffers :=
  bounds_gate initBuffers ⟨100, 3, 5, '@'⟩ (by decide)

/-- C8: the per-frame sampling sweep is a pure function of the persistent
orientation state: two executions from equal orientation vectors produce
equal character and depth buffers. -/
theorem frame_deterministic :
    ∀ A1 B1 A2 B2 : Int × Int, A1 = A2 → B1 = B2 →
      renderFrame A1 B1 = renderFrame A2 B2 := by
  intro A1 B1 A2 B2 h1 h2
  rw [h1, h2]

/-- Witness for C8 at the program's initial orientation state. -/
theorem frame_deterministic_witness :
    renderFrame (0, 1024) (0, 1024) = renderFrame (0, 1024) (0, 1024) :=
  frame_deterministic (0, 1024) (0, 1024) (0, 1024) (0, 1024) rfl rfl

/-- Counterexample for C7: on a state whose luminance index computes to 16
(with the screen position in bounds and the depth test passing), the ramp
lookup aborts the sample instead of clamping to the nearest valid extreme:
an out-of-range index on the high side is fatal. -/
theorem lum_clamp_counterexample :
    12 ≤ lumIndex vStar ∧ lumChar (lumIndex vStar) = none ∧
    sampleStep vStar initBuffers = none :=
  ⟨by decide, by decide, rfl⟩

/-- C7 amended: the `usize` conversion clamps only the negative side —
every negative luminance index becomes 0 and selects the darkest ramp entry
`'.'`; a nonnegative index is used as is, so an index in `[0, 11]` selects
its ramp entry, while an index above 11 is not clamped and the lookup
aborts. -/
theorem lum_clamp_amended :
    (∀ l : Int, l < 0 → lumNat l = 0 ∧ lumChar l = some '.') ∧
    (∀ l : Int, 0 ≤ l → lumNat l = l.toNat) ∧
    (∀ l : Int, 11 < l → lumChar l = none) := by
  refine ⟨fun l hl => ?_, fun l hl => ?_, fun l hl => ?_⟩
  · have h0 : lumNat l = 0 := by rw [lumNat, if_pos hl]
    exact ⟨h0, by rw [lumChar, h0]; rfl⟩
  · rw [lumNat, if_neg (not_lt.mpr hl)]
  · have h0 : lumNat l = l.toNat := by rw [lumNat, if_neg (by omega)]
    rw [lumChar, h0]
    apply List.getElem?_eq_none
    show 12 ≤ l.toNat
    omega

/-- Witness for the amended C7 at indices -5, 3 and 20. -/
theorem lum_clamp_amended_witness :
    lumNat (-5) = 0 ∧ lumChar (-5) = some '.' ∧ lumNat 3 = 3 ∧ lumChar 20 = none :=
  ⟨(lum_clamp_amended.1 (-5) (by norm_num)).1,
    (lum_clamp_amended.1 (-5) (by norm_num)).2,
    by rw [lum_clamp_amended.2.1 3 (by norm_num)]; rfl,
    lum_clamp_amended.2.2 20 (by norm_num)⟩

theorem countP_mod80 : ∀ m : Nat,
    (List.range (80 * m)).countP (fun k => decide (k % 80 = 0)) = m := by
  intro m
  induction m with
  | zero => rfl
  | succ m ih =>
      have he : 80 * (m + 1) = 80 * m + 80 := by ring
      rw [he, List.range_add, List.countP_append, ih, List.countP_map]
      have hc : (List.range 80).countP
          ((fun k => decide (k % 80 = 0)) ∘ fun x => 80 * m + x) =
          (List.range 80).countP (fun k => decide (k % 80 = 0)) := by
        apply List.countP_congr
        intro x _
        simp only [Function.comp_apply, decide_eq_true_eq]
        omega
      rw [hc, show (List.range 80).countP (fun k => decide (k % 80 = 0)) = 1 from by decide]

theorem frame_newline_count (buf : Nat → Char) (hbuf : ∀ k, buf k ≠ '\n') :
    (frameChars buf).countP (fun c => c == '\n') = 23 := by
  rw [frameChars, List.countP_map]
  have hc : (List.range 1761).countP
      ((fun c => c == '\n') ∘ fun k => if k % 80 = 0 then '\n' else buf k) =
      (List.range 1761).countP (fun k => decide (k % 80 = 0)) := by
    apply List.countP_congr
    intro k _
    simp only [Function.comp_apply, decide_eq_true_eq, beq_iff_eq]
    by_cases h : k % 80 = 0
    · rw [if_pos h]
      exact ⟨fun _ => h, fun _ => rfl⟩
    · rw [if_neg h]
      exact ⟨fun hcon => absurd hcon (hbuf k), fun hcon => absurd hcon h⟩
  rw [hc, show (1761 : Nat) = 80 * 22 + 1 from by norm_num, List.range_add,
    List.countP_append, countP_mod80, List.countP_map,
    show (List.range 1).countP
      ((fun k => decide (k % 80 = 0)) ∘ fun x => 80 * 22 + x) = 1 from by decide]

theorem frame_visible_count (buf : Nat → Char) (hbuf : ∀ k, buf k ≠ '\n') :
    (frameChars buf).countP (fun c => !(c == '\n')) = 1738 := by
  have hlen : (frameChars buf).length = 1761 := by
    simp [frameChars]
  have hsplit := List.length_eq_countP_add_countP (fun c => c == '\n') (frameChars buf)
  have hcongr : (frameChars buf).countP (fun a => decide ¬(a == '\n') = true) =
      (frameChars buf).countP (fun c => !(c == '\n')) := by
    apply List.countP_congr
    intro x _
    cases h : x == '\n' <;> simp [h]
  rw [hlen, frame_newline_count buf hbuf, hcongr] at hsplit
  omega

theorem frame_content (buf : Nat → Char) :
    ∀ k, k < 1761 → (frameChars buf).getD k ' ' =
      if k % 80 = 0 then '\n' else buf k := by
  intro k hk
  rw [frameChars, List.getD_eq_getElem?_getD, List.getElem?_map,
    List.getElem?_range hk]
  rfl

/-- Counterexample for C9: on the blank buffer the frame body contains 1738
visible (non-newline) characters, not the 80×22 = 1760 the claim states:
the print loop emits a newline in place of every cell whose flat index is a
multiple of 80, so each of the 22 rows shows only 79 buffer characters. -/
theorem frame_emit_counterexample :
    (frameChars fun _ => ' ').countP (fun c => !(c == '\n')) = 1738 ∧
    (1738 : Nat) ≠ 80 * 22 :=
  ⟨frame_visible_count _ (fun _ => by show ' ' ≠ '\n'; decide), by norm_num⟩

/-- C9 amended: each frame emits exactly 1761 characters: position `k`
holds a newline when `k` is a multiple of 80 (23 newlines: one before each
of the 22 rows and one closing the frame) and buffer cell `k` otherwise, so
each row exposes its cells `1..79` — 79 visible characters per row, 1738 in
total; cell indices divisible by 80 (column 0, which the bounds gate keeps
blank anyway) are never printed.  The frame is followed by the control
sequence `ESC [ 2 3 A` that moves the cursor up 23 lines — matching the 23
emitted newlines — so the next frame overdraws in place. -/
theorem frame_emit_amended (buf : Nat → Char) (hbuf : ∀ k, buf k ≠ '\n') :
    (frameChars buf).length = 1761 ∧
    (frameChars buf).countP (fun c => c == '\n') = 23 ∧
    (frameChars buf).countP (fun c => !(c == '\n')) = 1738 ∧
    (∀ k, k < 1761 → (frameChars buf).getD k ' ' =
      if k % 80 = 0 then '\n' else buf k) ∧
    frameOutput buf = frameChars buf ++ ['\x1b', '[', '2', '3', 'A'] :=
  ⟨by simp [frameChars], frame_newline_count buf hbuf,
    frame_visible_count buf hbuf, frame_content buf, rfl⟩

/-- Witness for the amended C9 at the blank buffer. -/
theorem frame_emit_amended_witness :
    (frameChars fun _ => ' ').length = 1761 ∧
    (frameChars fun _ => ' ').countP (fun c => c == '\n') = 23 ∧
    (frameChars fun _ => ' ').countP (fun c => !(c == '\n')) = 1738 ∧
    (∀ k, k < 1761 → (frameChars fun _ => ' ').getD k ' ' =
      if k % 80 = 0 then '\n' else ' ') ∧
    frameOutput (fun _ => ' ') = frameChars (fun _ => ' ') ++ ['\x1b', '[', '2', '3', 'A'] :=
  frame_emit_amended (fun _ => ' ') (fun _ => by show ' ' ≠ '\n'; decide)

end Donut
